import Mathlib

/-!
Verification of the `teller` log-shipping client (Go).

The repository contains two variants of the delivery core:
  * `src/app.go` — records carry an RFC3339 timestamp, JSON records are
    newline-terminated, the heartbeat is the reserved token `"|beat|"`, and any
    write failure terminates the loop (fail-fast).
  * `src/unnamed/part_000` — records carry a `beat` flag and a
    `time.Time.String()` timestamp, no newline framing, a failed log-record
    write is appended to a mutex-guarded pending slice before the loop
    terminates, and every successful write is followed by a blocking read.

This file embeds both variants: the wire encoders (`encoding/json` marshalling
of the two `SyslogLine` structs), the two timestamp formats, the two delivery
loops as functions from event traces to write sequences, and a conforming
JSON receiver used for round-trip and framing claims.
-/

/-- Character of a single decimal digit `n < 10` (code point `48 + n`),
as produced by Go's `%d`-style formatting. -/
def digitChar (n : Nat) : Char := Char.ofNat (48 + n)

/-- Decimal-digit test on characters, by code point (`'0'` through `'9'`). -/
def isDig (c : Char) : Bool := 48 ≤ c.toNat && c.toNat ≤ 57

/-- Numeric value of a decimal digit character. -/
def toV (c : Char) : Nat := c.toNat - 48

/-- Lowercase hexadecimal digit character for `n < 16`, as produced by Go's
`encoding/json` `\u00xx` escapes. -/
def hexChar (n : Nat) : Char :=
  if n < 10 then digitChar n else Char.ofNat (87 + n)

/-- Value of a hexadecimal digit character (upper or lower case), `none` on
a non-hex-digit, as read by a conforming JSON receiver. -/
def hexVal? (c : Char) : Option Nat :=
  if isDig c then some (c.toNat - 48)
  else if 97 ≤ c.toNat && c.toNat ≤ 102 then some (c.toNat - 87)
  else if 65 ≤ c.toNat && c.toNat ≤ 70 then some (c.toNat - 55)
  else none

theorem toNat_charOfNat (n : Nat) (h : n < 55296) : (Char.ofNat n).toNat = n := by
  have hv : n.isValidChar := Or.inl h
  rw [Char.ofNat, dif_pos hv]
  rfl

theorem toNat_digitChar (n : Nat) (h : n < 10) : (digitChar n).toNat = 48 + n := by
  unfold digitChar
  exact toNat_charOfNat _ (by omega)

theorem isDig_digitChar (n : Nat) (h : n < 10) : isDig (digitChar n) = true := by
  simp [isDig, toNat_digitChar n h]
  omega

theorem toV_digitChar (n : Nat) (h : n < 10) : toV (digitChar n) = n := by
  simp [toV, toNat_digitChar n h]

/-- Two-digit zero-padded decimal rendering (Go's `%02d` for values below 100). -/
def pad2 (n : Nat) : List Char := [digitChar (n / 10 % 10), digitChar (n % 10)]

/-- Four-digit zero-padded decimal rendering (Go's `%04d` for values below 10000). -/
def pad4 (n : Nat) : List Char :=
  [digitChar (n / 1000 % 10), digitChar (n / 100 % 10),
   digitChar (n / 10 % 10), digitChar (n % 10)]

/-- Decimal digit characters of a natural number, most significant first,
as produced by Go's `strconv` integer formatting. -/
def natChars (n : Nat) : List Char :=
  if _h : n < 10 then [digitChar n] else natChars (n / 10) ++ [digitChar (n % 10)]
termination_by n
decreasing_by exact Nat.div_lt_self (by omega) (by omega)

/-- Decimal rendering of a Go `int` (`strconv.Itoa`): optional minus sign then digits. -/
def intChars (i : Int) : List Char :=
  if i < 0 then '-' :: natChars i.natAbs else natChars i.natAbs

/-- A Go `time.Time` value, with the broken-down fields that the two textual
formats used by this program need: calendar fields, nanoseconds, the zone
offset east of UTC in minutes, the zone name, and the monotonic-clock suffix
text that `time.Time.String()` appends for values obtained from `time.Now()`
(empty when no monotonic reading is present). -/
structure GoTime where
  year : Nat
  month : Nat
  day : Nat
  hour : Nat
  minute : Nat
  second : Nat
  nsec : Nat
  offMin : Int
  tzName : String
  monoSuffix : String
deriving DecidableEq, Repr

/-- Field ranges of any `time.Time` produced by a real clock reading. -/
def GoTime.Valid (t : GoTime) : Prop :=
  1 ≤ t.year ∧ t.year ≤ 9999 ∧ 1 ≤ t.month ∧ t.month ≤ 12 ∧ 1 ≤ t.day ∧
  t.day ≤ 31 ∧ t.hour ≤ 23 ∧ t.minute ≤ 59 ∧ t.second ≤ 59 ∧ t.offMin.natAbs ≤ 1439

/-- Zone suffix of Go's `time.RFC3339` layout (`Z07:00`): `Z` at offset zero,
otherwise a sign and `hh:mm`. -/
def offChars (off : Int) : List Char :=
  if off = 0 then ['Z']
  else (if off < 0 then '-' else '+') :: (pad2 (off.natAbs / 60) ++ ':' :: pad2 (off.natAbs % 60))

/-- Go's `t.Format(time.RFC3339)` (layout `2006-01-02T15:04:05Z07:00`), used by
`src/app.go` for the `timestamp` field. -/
def fmtRFC3339 (t : GoTime) : List Char :=
  pad4 t.year ++ '-' :: pad2 t.month ++ '-' :: pad2 t.day ++
  'T' :: pad2 t.hour ++ ':' :: pad2 t.minute ++ ':' :: pad2 t.second ++ offChars t.offMin

/-- Numeric zone of Go's `-0700` layout element: sign then `hhmm`, no colon. -/
def offChars4 (off : Int) : List Char :=
  (if off < 0 then '-' else '+') :: (pad2 (off.natAbs / 60) ++ pad2 (off.natAbs % 60))

/-- Nine-digit zero-padded nanoseconds. -/
def pad9 (n : Nat) : List Char :=
  [digitChar (n / 100000000 % 10), digitChar (n / 10000000 % 10),
   digitChar (n / 1000000 % 10), digitChar (n / 100000 % 10),
   digitChar (n / 10000 % 10), digitChar (n / 1000 % 10),
   digitChar (n / 100 % 10), digitChar (n / 10 % 10), digitChar (n % 10)]

/-- Fractional-second part of Go's `.999999999` layout element: empty at zero
nanoseconds, otherwise a dot and the nanosecond digits with trailing zeros
trimmed. -/
def fracChars (ns : Nat) : List Char :=
  if ns = 0 then [] else '.' :: ((pad9 ns).reverse.dropWhile (· = '0')).reverse

/-- Go's `time.Time.String()` (layout `2006-01-02 15:04:05.999999999 -0700 MST`,
followed by the `m=±d.ddddddddd` monotonic-clock suffix when present), used by
`src/unnamed/part_000` for every `timestamp` field. -/
def goTimeString (t : GoTime) : List Char :=
  pad4 t.year ++ '-' :: pad2 t.month ++ '-' :: pad2 t.day ++
  ' ' :: pad2 t.hour ++ ':' :: pad2 t.minute ++ ':' :: pad2 t.second ++
  fracChars t.nsec ++ ' ' :: offChars4 t.offMin ++ ' ' :: t.tzName.data ++
  (if t.monoSuffix.isEmpty then [] else ' ' :: t.monoSuffix.data)

/-- Escape of one character inside a JSON string, exactly as Go's
`encoding/json` marshaller emits it (HTML escaping on, as under `json.Marshal`):
quote and backslash get a backslash escape, newline, carriage return and tab
get their short escapes, other control characters get `\u00xx`, the
HTML-sensitive characters and U+2028/U+2029 get `\uxxxx`, and every other
character is emitted as itself. -/
def escChar (c : Char) : List Char :=
  if c = '"' then ['\\', '"']
  else if c = '\\' then ['\\', '\\']
  else if c = '\n' then ['\\', 'n']
  else if c = '\r' then ['\\', 'r']
  else if c = '\t' then ['\\', 't']
  else if c.toNat < 32 then ['\\', 'u', '0', '0', hexChar (c.toNat / 16), hexChar (c.toNat % 16)]
  else if c = '<' then ['\\', 'u', '0', '0', '3', 'c']
  else if c = '>' then ['\\', 'u', '0', '0', '3', 'e']
  else if c = '&' then ['\\', 'u', '0', '0', '2', '6']
  else if c.toNat = 8232 then ['\\', 'u', '2', '0', '2', '8']
  else if c.toNat = 8233 then ['\\', 'u', '2', '0', '2', '9']
  else [c]

/-- JSON string-body escape of a character sequence. -/
def escList (l : List Char) : List Char := (l.map escChar).flatten

/-- JSON values occurring in this program's wire records: strings, integers
(the `pid` of the `src/app.go` record) and booleans (the `beat` flag of the
`src/unnamed/part_000` record). -/
inductive JVal where
  | str (s : String)
  | num (i : Int)
  | bool (b : Bool)
deriving DecidableEq, Repr

/-- Rendering of one JSON value, as `encoding/json` emits it. -/
def renderVal : JVal → List Char
  | .str s => '"' :: (escList s.data ++ ['"'])
  | .num i => intChars i
  | .bool true => ['t', 'r', 'u', 'e']
  | .bool false => ['f', 'a', 'l', 's', 'e']

/-- Rendering of one `"key":value` member. -/
def renderPair (p : String × JVal) : List Char :=
  '"' :: (escList p.1.data ++ '"' :: ':' :: renderVal p.2)

/-- Comma-separated rendering of the members of a JSON object. -/
def joinPairs : List (String × JVal) → List Char
  | [] => []
  | [p] => renderPair p
  | p :: ps => renderPair p ++ ',' :: joinPairs ps

/-- Rendering of a JSON object, as `encoding/json` emits a struct: members in
struct-field order between braces. -/
def renderObj (ps : List (String × JVal)) : List Char :=
  '\x7b' :: (joinPairs ps ++ ['\x7d'])

/-- The `SyslogLine` struct of `src/app.go`: five fields, integer `pid`. -/
structure SyslogLineA where
  Timestamp : String
  Hostname : String
  Program : String
  Pid : Int
  Message : String
deriving DecidableEq, Repr

/-- Members of the JSON object `json.Marshal` produces for `src/app.go`'s
`SyslogLine`, in struct-field order with the struct's `json` tags. -/
def pairsA (sl : SyslogLineA) : List (String × JVal) :=
  [("timestamp", .str sl.Timestamp), ("hostname", .str sl.Hostname),
   ("program", .str sl.Program), ("pid", .num sl.Pid), ("message", .str sl.Message)]

/-- `json.Marshal` of `src/app.go`'s `SyslogLine`. -/
def marshalA (sl : SyslogLineA) : List Char := renderObj (pairsA sl)

/-- The `SyslogLine` struct of `src/unnamed/part_000`: `beat` flag first,
string `pid`. -/
structure SyslogLineB where
  Beat : Bool
  Timestamp : String
  Hostname : String
  Program : String
  Pid : String
  Message : String
deriving DecidableEq, Repr

/-- Members of the JSON object `json.Marshal` produces for
`src/unnamed/part_000`'s `SyslogLine`, in struct-field order. -/
def pairsB (sl : SyslogLineB) : List (String × JVal) :=
  [("beat", .bool sl.Beat), ("timestamp", .str sl.Timestamp),
   ("hostname", .str sl.Hostname), ("program", .str sl.Program),
   ("pid", .str sl.Pid), ("message", .str sl.Message)]

/-- `json.Marshal` of `src/unnamed/part_000`'s `SyslogLine`. -/
def marshalB (sl : SyslogLineB) : List Char := renderObj (pairsB sl)

/-- The reserved heartbeat token of `src/app.go`: the loop writes the literal
byte string `|beat|` on every ticker fire. -/
def beatTokenA : List Char := "|beat|".data

/-- One event the `select` loop of `src/app.go`'s `TailAndProcess` can wake on:
a value from the tail channel carrying the read time, the line text, whether
the tail library reported a per-line error (`line.Err != nil`) and whether the
subsequent stream write succeeds; the tail channel closing (`ok == false`); or
a ticker fire, with the success of the heartbeat write. -/
inductive EvA where
  | line (t : GoTime) (text : String) (rerr : Bool) (wok : Bool)
  | closed
  | tick (wok : Bool)
deriving DecidableEq, Repr

/-- The `SyslogLine` that `src/app.go` builds for an observed line: RFC3339
capture time, configured hostname and pid, the literal program name
`"teller"`, and the line text as message. -/
def lineRecA (host : String) (pid : Int) (t : GoTime) (text : String) : SyslogLineA :=
  ⟨⟨fmtRFC3339 t⟩, host, "teller", pid, text⟩

/-- One write attempt of `src/app.go`'s loop: an encoded log record (whose
payload is the marshalled record plus a trailing newline) or the heartbeat
token. -/
inductive OutA where
  | log (sl : SyslogLineA)
  | beat
deriving DecidableEq, Repr

/-- Byte payload handed to `stream.Write` for one `src/app.go` output. -/
def payloadA : OutA → List Char
  | .log sl => marshalA sl ++ ['\n']
  | .beat => beatTokenA

/-- The delivery loop of `src/app.go` (`TailAndProcess`), as a function from
the trace of events the `select` statement wakes on to the sequence of write
attempts it performs, in order.  A closed tail channel returns from the
function; a per-line tail error is logged and skipped; a line is wrapped,
marshalled, newline-terminated and written; a failed write (of a record or of
the heartbeat token) returns from the function, so no later event is
processed.  `json.Marshal` of this struct cannot fail, so the
marshalling-error branch of the source is not reachable. -/
def runA (host : String) (pid : Int) : List EvA → List OutA
  | [] => []
  | .closed :: _ => []
  | .line t text rerr wok :: rest =>
    match rerr with
    | true => runA host pid rest
    | false =>
      match wok with
      | true => .log (lineRecA host pid t text) :: runA host pid rest
      | false => [.log (lineRecA host pid t text)]
  | .tick wok :: rest =>
    match wok with
    | true => .beat :: runA host pid rest
    | false => [.beat]

/-- One event the `select` loop of `src/unnamed/part_000`'s `TailAndProcess`
can wake on.  Line events additionally carry whether the read of the server
response that follows a successful write succeeds (`rok`); `rerr` records
whether the tail library attached a per-line error, which this variant never
inspects. -/
inductive EvB where
  | line (t : GoTime) (text : String) (rerr : Bool) (wok : Bool) (rok : Bool)
  | closed
  | tick (t : GoTime) (wok : Bool) (rok : Bool)
deriving DecidableEq, Repr

/-- The `SyslogLine` that `src/unnamed/part_000` builds for an observed line:
`time.Now().String()` timestamp and the hard-coded hostname, program and pid. -/
def lineRecB (t : GoTime) (text : String) : SyslogLineB :=
  ⟨false, ⟨goTimeString t⟩, "localhost", "myapp", "1234", text⟩

/-- The heartbeat `SyslogLine` of `src/unnamed/part_000`: `Beat` set, a
`time.Now().String()` timestamp, every other field left at its zero value. -/
def beatRecB (t : GoTime) : SyslogLineB :=
  ⟨true, ⟨goTimeString t⟩, "", "", "", ""⟩

/-- One write attempt of `src/unnamed/part_000`'s loop; the payload of either
kind is the marshalled record with no added framing. -/
inductive OutB where
  | log (sl : SyslogLineB)
  | beat (sl : SyslogLineB)
deriving DecidableEq, Repr

/-- Byte payload handed to `stream.Write` for one `src/unnamed/part_000`
output. -/
def payloadB : OutB → List Char
  | .log sl => marshalB sl
  | .beat sl => marshalB sl

/-- Mutable state of `src/unnamed/part_000`'s `App` that `TailAndProcess`
touches: the `Requsts` pending slice and the `Lines` byte buffer. -/
structure StB where
  requsts : List SyslogLineB
  lines : List Char
deriving DecidableEq, Repr

/-- `App.AddRequest`: append one record to the pending slice (performed under
`a.Memory`; the commented-out length cap in the source is not active). -/
def addRequest (l : List SyslogLineB) (r : SyslogLineB) : List SyslogLineB := l ++ [r]

/-- The zero value of `src/unnamed/part_000`'s `SyslogLine`, as
`make([]SyslogLine, 500)` fills the slice with. -/
def zeroLineB : SyslogLineB := ⟨false, "", "", "", "", ""⟩

/-- The `App` state `main` of `src/unnamed/part_000` starts `TailAndProcess`
with: `Requsts` is `make([]SyslogLine, 500)` — five hundred zero-valued
entries — and the `Lines` buffer is empty. -/
def initAppB : StB := ⟨List.replicate 500 zeroLineB, []⟩

/-- The delivery loop of `src/unnamed/part_000` (`TailAndProcess`), as a
function from the event trace to the final `App` state and the sequence of
write attempts.  On a line event the text plus a newline is first appended to
`a.Lines` under the mutex (`bytes.Buffer.WriteString` cannot fail, so the
error branch guarding it is not reachable); the record is marshalled and
written; a failed write calls `AddRequest` on the record and returns; after a
successful write the loop blocks reading a response and returns on a read
error.  On a ticker fire the heartbeat record is marshalled and written; a
failed heartbeat write returns without buffering; a successful one is likewise
followed by a blocking read.  The per-line tail error is never inspected. -/
def runB (st : StB) : List EvB → StB × List OutB
  | [] => (st, [])
  | .closed :: _ => (st, [])
  | .line t text _ wok rok :: rest =>
    let st1 : StB := ⟨st.requsts, st.lines ++ text.data ++ ['\n']⟩
    let sl := lineRecB t text
    match wok with
    | false => (⟨addRequest st1.requsts sl, st1.lines⟩, [.log sl])
    | true =>
      match rok with
      | false => (st1, [.log sl])
      | true =>
        let r := runB st1 rest
        (r.1, .log sl :: r.2)
  | .tick t wok rok :: rest =>
    let sl := beatRecB t
    match wok with
    | false => (st, [.beat sl])
    | true =>
      match rok with
      | false => (st, [.beat sl])
      | true =>
        let r := runB st rest
        (r.1, .beat sl :: r.2)

/-- Write attempts of a `src/unnamed/part_000` run. -/
def outsB (st : StB) (evs : List EvB) : List OutB := (runB st evs).2

/-- Texts of the line events of a trace, in order (variant `src/app.go`). -/
def lineTextsA : List EvA → List String
  | [] => []
  | .line _ x _ _ :: r => x :: lineTextsA r
  | _ :: r => lineTextsA r

/-- Messages of the log-record write attempts, in order (variant `src/app.go`). -/
def recMsgsA : List OutA → List String
  | [] => []
  | .log sl :: r => sl.Message :: recMsgsA r
  | .beat :: r => recMsgsA r

/-- Texts of the line events of a trace, in order (variant
`src/unnamed/part_000`). -/
def lineTextsB : List EvB → List String
  | [] => []
  | .line _ x _ _ _ :: r => x :: lineTextsB r
  | _ :: r => lineTextsB r

/-- Messages of the log-record write attempts, in order (variant
`src/unnamed/part_000`). -/
def recMsgsB : List OutB → List String
  | [] => []
  | .log sl :: r => sl.Message :: recMsgsB r
  | .beat _ :: r => recMsgsB r

/-- An event on which the `src/app.go` loop proceeds normally: a line event
with no per-line error and a successful write, or a tick with a successful
write; the closed-channel event is not of this kind. -/
def healthyA : EvA → Bool
  | .line _ _ rerr wok => !rerr && wok
  | .closed => false
  | .tick wok => wok

/-- An event on which the `src/unnamed/part_000` loop proceeds: both the write
and the following response read succeed. -/
def healthyB : EvB → Bool
  | .line _ _ _ wok rok => wok && rok
  | .closed => false
  | .tick _ wok rok => wok && rok

/-- The heartbeat period of both loops: `time.NewTicker(5 * time.Second)`. -/
def tickerPeriod : Nat := 5

/-- Fire times of a ticker with period `p` up to and including time `tmax`:
`p, 2p, ...`. -/
def tickTimes (p tmax : Nat) : List Nat := (List.range (tmax / p)).map (fun k => (k + 1) * p)

/-- Real-time merge of a time-ordered list of line arrivals with a list of
ticker fires into the event trace the `select` statement of `src/app.go`
observes, all reads and writes healthy; `clk` gives the wall-clock value at
each instant. -/
def mergeEvs (clk : Nat → GoTime) : List (Nat × String) → List Nat → List EvA
  | [], ts => ts.map (fun _ => .tick true)
  | ls, [] => ls.map (fun p => .line (clk p.1) p.2 false true)
  | (t, x) :: ls, tk :: ts =>
    if t ≤ tk then .line (clk t) x false true :: mergeEvs clk ls (tk :: ts)
    else .tick true :: mergeEvs clk ((t, x) :: ls) ts

/-- Event trace observed for a schedule of line appends (arrival time and
text, time-ordered) under a heartbeat ticker of period `p`, within the window
ending at the last line's arrival. -/
def scheduleEvents (clk : Nat → GoTime) (ls : List (Nat × String)) (p : Nat) : List EvA :=
  mergeEvs clk ls (tickTimes p ((ls.map Prod.fst).foldl max 0))

/-- View of a wire sequence retaining only record messages and heartbeat
marks. -/
inductive WireItem where
  | msg (s : String)
  | beat
deriving DecidableEq, Repr

/-- Wire view of a `src/app.go` output sequence. -/
def wireViewA : List OutA → List WireItem
  | [] => []
  | .log sl :: r => .msg sl.Message :: wireViewA r
  | .beat :: r => .beat :: wireViewA r

/-- Body of a JSON string as a conforming receiver reads it, given the input
after the opening quote: returns the unescaped content and the input after
the closing quote.  Handles the two-character escapes, `\uxxxx` escapes and
raw characters; fails on a lone backslash, an unknown escape or a missing
closing quote. -/
def parseString : List Char → Option (List Char × List Char)
  | [] => none
  | c :: rest =>
    if c = '"' then some ([], rest)
    else if c = '\\' then
      match rest with
      | [] => none
      | e :: rest2 =>
        if e = 'u' then
          match rest2 with
          | h1 :: h2 :: h3 :: h4 :: rest3 =>
            match hexVal? h1, hexVal? h2, hexVal? h3, hexVal? h4 with
            | some a, some b, some c2, some d =>
              (parseString rest3).map fun p =>
                (Char.ofNat (4096 * a + 256 * b + 16 * c2 + d) :: p.1, p.2)
            | _, _, _, _ => none
          | _ => none
        else
          match unescChar? e with
          | some u => (parseString rest2).map fun p => (u :: p.1, p.2)
          | none => none
    else (parseString rest).map fun p => (c :: p.1, p.2)
where
  /-- Character denoted by a single-character JSON escape: the quote, the
  backslash and the slash stand for themselves, and the letters n, r, t, b
  and f for the usual control characters. -/
  unescChar? (e : Char) : Option Char :=
    if e = '"' ∨ e = '\\' ∨ e = '/' then some e
    else if e = 'n' then some '\n'
    else if e = 'r' then some '\r'
    else if e = 't' then some '\t'
    else if e = 'b' then some (Char.ofNat 8)
    else if e = 'f' then some (Char.ofNat 12)
    else none

/-- Natural-number value of a nonempty list of decimal digit characters,
most significant first. -/
def digsToNat (l : List Char) : Nat := l.foldl (fun a c => 10 * a + toV c) 0

/-- Decimal-number prefix of the input as a conforming receiver reads it:
the value of the leading digit run and the rest of the input; fails when the
input does not start with a digit. -/
def parseNat (l : List Char) : Option (Nat × List Char) :=
  let ds := l.takeWhile isDig
  if ds.isEmpty then none else some (digsToNat ds, l.dropWhile isDig)

/-- One JSON value (string, integer or boolean — the shapes this protocol
uses) as a conforming receiver reads it. -/
def parseVal : List Char → Option (JVal × List Char)
  | [] => none
  | c :: rest =>
    if c = '"' then (parseString rest).map fun p => (.str ⟨p.1⟩, p.2)
    else if c = 't' then
      if rest.take 3 = ['r', 'u', 'e'] then some (.bool true, rest.drop 3) else none
    else if c = 'f' then
      if rest.take 4 = ['a', 'l', 's', 'e'] then some (.bool false, rest.drop 4) else none
    else if c = '-' then (parseNat rest).map fun p => (.num (-(p.1 : Int)), p.2)
    else if isDig c then (parseNat (c :: rest)).map fun p => (.num (p.1 : Int), p.2)
    else none

/-- One `"key":value` member as a conforming receiver reads it. -/
def parsePair (l : List Char) : Option ((String × JVal) × List Char) :=
  match l with
  | [] => none
  | c :: rest =>
    if c = '"' then
      (parseString rest).bind fun pk =>
        match pk.2 with
        | ':' :: r2 => (parseVal r2).map fun pv => ((⟨pk.1⟩, pv.1), pv.2)
        | _ => none
    else none

/-- The comma-separated members of a JSON object up to its closing brace, as a
conforming receiver reads them; `fuel` bounds the number of members. -/
def parsePairs : Nat → List Char → Option (List (String × JVal) × List Char)
  | 0, _ => none
  | fuel + 1, l =>
    (parsePair l).bind fun pp =>
      match pp.2 with
      | ',' :: r2 => (parsePairs fuel r2).map fun pr => (pp.1 :: pr.1, pr.2)
      | '\x7d' :: r2 => some (pp.1 :: [], r2)
      | _ => none

/-- A nonempty JSON object as a conforming receiver reads it (every record of
this protocol has at least one member). -/
def parseObj (l : List Char) : Option (List (String × JVal) × List Char) :=
  match l with
  | '\x7b' :: rest => parsePairs rest.length rest
  | _ => none

/-- Key list of the object a byte sequence encodes, as a conforming receiver
recovers it: `none` when the bytes are not a complete JSON object. -/
def recordKeys (l : List Char) : Option (List String) :=
  match parseObj l with
  | some (ps, []) => some (ps.map Prod.fst)
  | _ => none

/-- First value bound to a key in a parsed object. -/
def lookupJ (k : String) (ps : List (String × JVal)) : Option JVal :=
  (ps.find? fun p => p.1 = k).map Prod.snd

/-- A conforming receiver's decoding of one `src/app.go` wire record back into
the five typed fields of `SyslogLine`: parse the bytes as a JSON object and
read the `timestamp`, `hostname`, `program`, `pid` and `message` members. -/
def decodeA (l : List Char) : Option SyslogLineA :=
  match parseObj l with
  | some (ps, []) =>
    match lookupJ "timestamp" ps, lookupJ "hostname" ps, lookupJ "program" ps,
        lookupJ "pid" ps, lookupJ "message" ps with
    | some (.str ts), some (.str h), some (.str pr), some (.num pid), some (.str m) =>
      some ⟨ts, h, pr, pid, m⟩
    | _, _, _, _, _ => none
  | _ => none

/-- Offset part of an RFC 3339 `date-time`: `Z` (either case) or a signed
`hh:mm` numeric offset with in-range fields. -/
def rfcOff : List Char → Bool
  | ['Z'] => true
  | ['z'] => true
  | [sg, a, b, ':', c, d] =>
    (sg = '+' || sg = '-') && isDig a && isDig b && isDig c && isDig d &&
    decide (toV a * 10 + toV b ≤ 23) && decide (toV c * 10 + toV d ≤ 59)
  | _ => false

/-- Optional fraction then offset, the tail of an RFC 3339 `partial-time`:
a dot must be followed by at least one digit before the offset. -/
def rfcFracOff (l : List Char) : Bool :=
  match l with
  | '.' :: rest => !(rest.takeWhile isDig).isEmpty && rfcOff (rest.dropWhile isDig)
  | _ => rfcOff l

/-- Validity of a byte sequence as an RFC 3339 `date-time`: the
`full-date "T" full-time` grammar with the numeric range constraints on each
field (month 1–12, day 1–31, hour ≤ 23, minute ≤ 59, second ≤ 60 to admit a
leap second, offset hour ≤ 23 and offset minute ≤ 59); the `T` separator may
be lowercase as RFC 3339 permits. -/
def isRFC3339 : List Char → Bool
  | y1 :: y2 :: y3 :: y4 :: '-' :: o1 :: o2 :: '-' :: d1 :: d2 :: sep ::
      h1 :: h2 :: ':' :: i1 :: i2 :: ':' :: s1 :: s2 :: rest =>
    isDig y1 && isDig y2 && isDig y3 && isDig y4 &&
    isDig o1 && isDig o2 && isDig d1 && isDig d2 &&
    isDig h1 && isDig h2 && isDig i1 && isDig i2 && isDig s1 && isDig s2 &&
    (sep = 'T' || sep = 't') &&
    decide (1 ≤ toV o1 * 10 + toV o2) && decide (toV o1 * 10 + toV o2 ≤ 12) &&
    decide (1 ≤ toV d1 * 10 + toV d2) && decide (toV d1 * 10 + toV d2 ≤ 31) &&
    decide (toV h1 * 10 + toV h2 ≤ 23) && decide (toV i1 * 10 + toV i2 ≤ 59) &&
    decide (toV s1 * 10 + toV s2 ≤ 60) && rfcFracOff rest
  | _ => false

theorem string_mk_data (s : String) : String.mk s.data = s := rfl

theorem escList_nil : escList [] = [] := rfl

theorem escList_cons (c : Char) (l : List Char) :
    escList (c :: l) = escChar c ++ escList l := by
  simp [escList]


theorem hexVal?_hexChar (n : Nat) (h : n < 16) : hexVal? (hexChar n) = some n := by
  interval_cases n <;> decide

theorem parseString_quote (rest : List Char) : parseString ('"' :: rest) = some ([], rest) := by
  rw [parseString.eq_def]
  simp

theorem parseString_raw (c : Char) (rest : List Char) (h1 : c ≠ '"') (h2 : c ≠ '\\') :
    parseString (c :: rest) = (parseString rest).map fun p => (c :: p.1, p.2) := by
  rw [parseString.eq_def]
  simp [h1, h2]

theorem parseString_esc2 (e : Char) (rest : List Char) (he : e ≠ 'u') :
    parseString ('\\' :: e :: rest) =
      match parseString.unescChar? e with
      | some u => (parseString rest).map fun p => (u :: p.1, p.2)
      | none => none := by
  rw [parseString.eq_def]
  simp [he]

theorem parseString_u (a b c d : Char) (rest : List Char) :
    parseString ('\\' :: 'u' :: a :: b :: c :: d :: rest) =
      match hexVal? a, hexVal? b, hexVal? c, hexVal? d with
      | some va, some vb, some vc, some vd =>
        (parseString rest).map fun p =>
          (Char.ofNat (4096 * va + 256 * vb + 16 * vc + vd) :: p.1, p.2)
      | _, _, _, _ => none := by
  rw [parseString.eq_def]
  simp

set_option maxHeartbeats 2000000 in
theorem parseString_esc (l : List Char) : ∀ rest : List Char,
    parseString (escList l ++ '"' :: rest) = some (l, rest) := by
  induction l with
  | nil =>
    intro rest
    rw [escList_nil, List.nil_append, parseString_quote]
  | cons c l ih =>
    intro rest
    rw [escList_cons, List.append_assoc]
    unfold escChar
    split_ifs with h1 h2 h3 h4 h5 h6 h7 h8 h9 h10 h11
    · subst h1
      rw [List.cons_append, List.cons_append, List.nil_append,
        parseString_esc2 _ _ (by decide), show parseString.unescChar? '"' = some '"' from rfl,
        ih]
      rfl
    · subst h2
      rw [List.cons_append, List.cons_append, List.nil_append,
        parseString_esc2 _ _ (by decide), show parseString.unescChar? '\\' = some '\\' from rfl,
        ih]
      rfl
    · subst h3
      rw [List.cons_append, List.cons_append, List.nil_append,
        parseString_esc2 _ _ (by decide), show parseString.unescChar? 'n' = some '\n' from rfl,
        ih]
      rfl
    · subst h4
      rw [List.cons_append, List.cons_append, List.nil_append,
        parseString_esc2 _ _ (by decide), show parseString.unescChar? 'r' = some '\r' from rfl,
        ih]
      rfl
    · subst h5
      rw [List.cons_append, List.cons_append, List.nil_append,
        parseString_esc2 _ _ (by decide), show parseString.unescChar? 't' = some '\t' from rfl,
        ih]
      rfl
    · simp only [List.cons_append, List.nil_append]
      rw [parseString_u, hexVal?_hexChar _ (by omega), hexVal?_hexChar _ (by omega),
        show hexVal? '0' = some 0 from rfl, ih]
      have e4 : 16 * (c.toNat / 16) + c.toNat % 16 = c.toNat := by omega
      simp [e4, Char.ofNat_toNat]
    · subst h7
      simp only [List.cons_append, List.nil_append]
      rw [parseString_u, show hexVal? '0' = some 0 from rfl,
        show hexVal? '3' = some 3 from rfl, show hexVal? 'c' = some 12 from rfl, ih]
      simp
    · subst h8
      simp only [List.cons_append, List.nil_append]
      rw [parseString_u, show hexVal? '0' = some 0 from rfl,
        show hexVal? '3' = some 3 from rfl, show hexVal? 'e' = some 14 from rfl, ih]
      simp
    · subst h9
      simp only [List.cons_append, List.nil_append]
      rw [parseString_u, show hexVal? '0' = some 0 from rfl,
        show hexVal? '2' = some 2 from rfl, show hexVal? '6' = some 6 from rfl, ih]
      simp
    · simp only [List.cons_append, List.nil_append]
      rw [parseString_u, show hexVal? '2' = some 2 from rfl,
        show hexVal? '0' = some 0 from rfl, show hexVal? '8' = some 8 from rfl, ih]
      have e4 : Char.ofNat (4096 * 2 + 256 * 0 + 16 * 2 + 8) = c := by
        have e5 : (4096 * 2 + 256 * 0 + 16 * 2 + 8 : Nat) = c.toNat := by omega
        rw [e5, Char.ofNat_toNat]
      simp [e4]
    · simp only [List.cons_append, List.nil_append]
      rw [parseString_u, show hexVal? '2' = some 2 from rfl,
        show hexVal? '0' = some 0 from rfl, show hexVal? '9' = some 9 from rfl, ih]
      have e4 : Char.ofNat (4096 * 2 + 256 * 0 + 16 * 2 + 9) = c := by
        have e5 : (4096 * 2 + 256 * 0 + 16 * 2 + 9 : Nat) = c.toNat := by omega
        rw [e5, Char.ofNat_toNat]
      simp [e4]
    · rw [List.cons_append, List.nil_append, parseString_raw c _ h1 h2, ih]
      rfl

theorem natChars_digits (n : Nat) : ∀ c ∈ natChars n, isDig c = true := by
  induction n using Nat.strong_induction_on with
  | _ n ih =>
    rw [natChars.eq_def]
    by_cases h : n < 10
    · rw [dif_pos h]
      intro c hc
      simp at hc
      subst hc
      exact isDig_digitChar n h
    · rw [dif_neg h]
      intro c hc
      rcases List.mem_append.1 hc with h1 | h2
      · exact ih (n / 10) (Nat.div_lt_self (by omega) (by omega)) c h1
      · simp at h2
        subst h2
        exact isDig_digitChar _ (Nat.mod_lt _ (by omega))

theorem natChars_ne_nil (n : Nat) : natChars n ≠ [] := by
  rw [natChars.eq_def]
  by_cases h : n < 10
  · rw [dif_pos h]
    simp
  · rw [dif_neg h]
    simp

theorem digsToNat_append (l : List Char) (c : Char) :
    digsToNat (l ++ [c]) = 10 * digsToNat l + toV c := by
  simp [digsToNat, List.foldl_append]

theorem digsToNat_natChars (n : Nat) : digsToNat (natChars n) = n := by
  induction n using Nat.strong_induction_on with
  | _ n ih =>
    rw [natChars.eq_def]
    by_cases h : n < 10
    · rw [dif_pos h]
      simp [digsToNat, toV_digitChar n h]
    · rw [dif_neg h]
      rw [digsToNat_append, ih (n / 10) (Nat.div_lt_self (by omega) (by omega)),
        toV_digitChar _ (Nat.mod_lt _ (by omega))]
      omega

/-- The input does not begin with a decimal digit (so a digit run ends
exactly at its head). -/
def noDigStart : List Char → Bool
  | [] => true
  | c :: _ => !(isDig c)

theorem takeWhile_digits (ds r : List Char) (h1 : ∀ c ∈ ds, isDig c = true)
    (h2 : noDigStart r = true) :
    (ds ++ r).takeWhile isDig = ds ∧ (ds ++ r).dropWhile isDig = r := by
  induction ds with
  | nil =>
    cases r with
    | nil => simp
    | cons c cr =>
      simp [noDigStart] at h2
      simp [List.takeWhile, List.dropWhile, h2]
  | cons c cr ih =>
    have hc : isDig c = true := h1 c (by simp)
    have := ih (fun x hx => h1 x (by simp [hx]))
    simp [List.takeWhile, List.dropWhile, hc, this.1, this.2]

theorem parseNat_natChars (n : Nat) (r : List Char) (h : noDigStart r = true) :
    parseNat (natChars n ++ r) = some (n, r) := by
  have ht := takeWhile_digits (natChars n) r (natChars_digits n) h
  rw [parseNat]
  simp only [ht.1, ht.2]
  rw [if_neg (by simp [natChars_ne_nil n]), digsToNat_natChars]

theorem isDig_ne (c : Char) (h : isDig c = true) :
    c ≠ '"' ∧ c ≠ 't' ∧ c ≠ 'f' ∧ c ≠ '-' := by
  refine ⟨?_, ?_, ?_, ?_⟩ <;> (intro he; subst he; exact absurd h (by decide))

theorem parseVal_render (v : JVal) (r : List Char) (h : noDigStart r = true) :
    parseVal (renderVal v ++ r) = some (v, r) := by
  cases v with
  | str s =>
    show parseVal ('"' :: (escList s.data ++ ['"']) ++ r) = _
    rw [List.cons_append, List.append_assoc, List.cons_append, List.nil_append]
    simp [parseVal.eq_def, parseString_esc]
  | num i =>
    by_cases hi : i < 0
    · show parseVal (intChars i ++ r) = _
      rw [intChars, if_pos hi, List.cons_append]
      simp only [parseVal.eq_def]
      rw [if_neg (by decide), if_neg (by decide), if_neg (by decide), if_pos trivial,
        parseNat_natChars _ _ h]
      simp only [Option.map_some']
      have hv : -(i.natAbs : Int) = i := by omega
      rw [hv]
    · show parseVal (intChars i ++ r) = _
      rw [intChars, if_neg hi]
      cases hnc : natChars i.natAbs with
      | nil => exact absurd hnc (natChars_ne_nil _)
      | cons c0 tl =>
        have hd : isDig c0 = true := natChars_digits _ c0 (by rw [hnc]; simp)
        obtain ⟨e1, e2, e3, e4⟩ := isDig_ne c0 hd
        rw [List.cons_append]
        simp only [parseVal.eq_def]
        rw [if_neg e1, if_neg e2, if_neg e3, if_neg e4, if_pos hd,
          ← List.cons_append, ← hnc, parseNat_natChars _ _ h]
        simp only [Option.map_some']
        have hv : (i.natAbs : Int) = i := by omega
        rw [hv]
  | bool b =>
    cases b with
    | true =>
      show parseVal ('t' :: (['r', 'u', 'e'] ++ r)) = _
      simp [parseVal.eq_def]
    | false =>
      show parseVal ('f' :: (['a', 'l', 's', 'e'] ++ r)) = _
      simp [parseVal.eq_def]

theorem parsePair_render (k : String) (v : JVal) (r : List Char) (h : noDigStart r = true) :
    parsePair (renderPair (k, v) ++ r) = some ((k, v), r) := by
  show parsePair ('"' :: (escList k.data ++ '"' :: ':' :: renderVal v) ++ r) = _
  rw [List.cons_append, List.append_assoc, List.cons_append, List.cons_append]
  rw [parsePair]
  rw [if_pos rfl, parseString_esc]
  simp only [Option.some_bind]
  simp only [parseVal_render v r h, Option.map_some']

theorem parsePairs_join (ps : List (String × JVal)) : ∀ (fuel : Nat) (r : List Char),
    ps ≠ [] → ps.length ≤ fuel →
    parsePairs fuel (joinPairs ps ++ '\x7d' :: r) = some (ps, r) := by
  induction ps with
  | nil => intro fuel r hne _; exact absurd rfl hne
  | cons p ps ih =>
    intro fuel r _ hlen
    cases fuel with
    | zero => simp at hlen
    | succ fuel =>
      cases ps with
      | nil =>
        cases p with
        | mk k v =>
          rw [show joinPairs [(k, v)] = renderPair (k, v) from rfl]
          rw [parsePairs, parsePair_render k v ('\x7d' :: r) (by rfl)]
          simp
      | cons q qs =>
        cases p with
        | mk k v =>
          rw [show joinPairs ((k, v) :: q :: qs) = renderPair (k, v) ++ ',' :: joinPairs (q :: qs)
            from rfl]
          rw [List.append_assoc, List.cons_append]
          rw [parsePairs,
            parsePair_render k v (',' :: (joinPairs (q :: qs) ++ '\x7d' :: r)) (by rfl)]
          simp only [Option.some_bind]
          rw [ih fuel r (by simp) (by simpa using hlen)]
          simp

theorem renderPair_length_pos (p : String × JVal) : 1 ≤ (renderPair p).length := by
  cases p with
  | mk k v => simp [renderPair]

theorem joinPairs_length (ps : List (String × JVal)) : ps.length ≤ (joinPairs ps).length := by
  induction ps with
  | nil => simp [joinPairs]
  | cons p ps ih =>
    cases ps with
    | nil => simpa [joinPairs] using renderPair_length_pos p
    | cons q qs =>
      rw [show joinPairs (p :: q :: qs) = renderPair p ++ ',' :: joinPairs (q :: qs) from rfl]
      have := renderPair_length_pos p
      simp only [List.length_append, List.length_cons]
      simp at ih ⊢
      omega

theorem parseObj_render (ps : List (String × JVal)) (hne : ps ≠ []) :
    parseObj (renderObj ps) = some (ps, []) := by
  rw [renderObj, parseObj]
  rw [parsePairs_join ps _ [] hne]
  have := joinPairs_length ps
  simp only [List.length_append, List.length_cons, List.length_nil]
  omega

theorem decodeA_marshalA (sl : SyslogLineA) : decodeA (marshalA sl) = some sl := by
  rw [marshalA, decodeA, parseObj_render (pairsA sl) (by simp [pairsA])]
  simp [pairsA, lookupJ]

theorem recordKeys_marshalA (sl : SyslogLineA) :
    recordKeys (marshalA sl) = some ["timestamp", "hostname", "program", "pid", "message"] := by
  rw [marshalA, recordKeys, parseObj_render (pairsA sl) (by simp [pairsA])]
  simp [pairsA]

theorem recordKeys_marshalB (sl : SyslogLineB) :
    recordKeys (marshalB sl) =
      some ["beat", "timestamp", "hostname", "program", "pid", "message"] := by
  rw [marshalB, recordKeys, parseObj_render (pairsB sl) (by simp [pairsB])]
  simp [pairsB]

theorem isDig_mod (n : Nat) : isDig (digitChar (n % 10)) = true :=
  isDig_digitChar _ (Nat.mod_lt _ (by omega))

theorem toV_mod (n : Nat) : toV (digitChar (n % 10)) = n % 10 :=
  toV_digitChar _ (Nat.mod_lt _ (by omega))

theorem rfcOff_offChars (off : Int) (hb : off.natAbs ≤ 1439) :
    rfcFracOff (offChars off) = true := by
  rw [offChars]
  by_cases hz : off = 0
  · rw [if_pos hz]
    rfl
  · rw [if_neg hz]
    by_cases hneg : off < 0
    · rw [if_pos hneg]
      simp only [pad2, List.cons_append, List.nil_append]
      rw [rfcFracOff.eq_def]
      simp only [rfcOff]
      simp only [isDig_mod, toV_mod, Bool.and_eq_true, decide_eq_true_eq]
      simp
      omega
    · rw [if_neg hneg]
      simp only [pad2, List.cons_append, List.nil_append]
      rw [rfcFracOff.eq_def]
      simp only [rfcOff]
      simp only [isDig_mod, toV_mod, Bool.and_eq_true, decide_eq_true_eq]
      simp
      omega

theorem fmtRFC3339_valid (t : GoTime) (h : t.Valid) : isRFC3339 (fmtRFC3339 t) = true := by
  obtain ⟨h1, h2, h3, h4, h5, h6, h7, h8, h9, h10⟩ := h
  have hoff := rfcOff_offChars t.offMin h10
  rw [fmtRFC3339]
  simp only [pad4, pad2, List.cons_append, List.append_assoc, List.nil_append]
  simp only [isRFC3339]
  simp only [isDig_mod, toV_mod, Bool.and_eq_true, decide_eq_true_eq, hoff]
  simp
  omega

theorem digitChar_ne_nl (n : Nat) (h : n < 10) : digitChar n ≠ '\n' := by
  intro he
  have ht := congrArg Char.toNat he
  rw [toNat_digitChar n h] at ht
  simp at ht
  omega

theorem hexChar_ne_nl (n : Nat) (h : n < 16) : hexChar n ≠ '\n' := by
  interval_cases n <;> decide

set_option maxHeartbeats 2000000 in
theorem nl_not_escChar (c : Char) : '\n' ∉ escChar c := by
  unfold escChar
  split_ifs with h1 h2 h3 h4 h5 h6 h7 h8 h9 h10 h11
  · decide
  · decide
  · decide
  · decide
  · decide
  · intro hm
    rcases List.mem_cons.1 hm with h | hm
    · exact absurd h (by decide)
    rcases List.mem_cons.1 hm with h | hm
    · exact absurd h (by decide)
    rcases List.mem_cons.1 hm with h | hm
    · exact absurd h (by decide)
    rcases List.mem_cons.1 hm with h | hm
    · exact absurd h (by decide)
    rcases List.mem_cons.1 hm with h | hm
    · exact hexChar_ne_nl _ (by omega) h.symm
    rcases List.mem_cons.1 hm with h | hm
    · exact hexChar_ne_nl _ (by omega) h.symm
    · exact absurd hm (List.not_mem_nil _)
  · decide
  · decide
  · decide
  · decide
  · decide
  · intro hm
    rcases List.mem_cons.1 hm with h | hm
    · exact h3 h.symm
    · exact absurd hm (List.not_mem_nil _)

theorem nl_not_escList (l : List Char) : '\n' ∉ escList l := by
  induction l with
  | nil => simp [escList_nil]
  | cons c l ih =>
    rw [escList_cons]
    intro hm
    rcases List.mem_append.1 hm with h | h
    · exact nl_not_escChar c h
    · exact ih h

theorem nl_not_natChars (n : Nat) : '\n' ∉ natChars n := by
  intro hm
  have := natChars_digits n _ hm
  exact absurd this (by decide)

theorem nl_not_renderVal (v : JVal) : '\n' ∉ renderVal v := by
  cases v with
  | str s =>
    intro hm
    rw [show renderVal (.str s) = '"' :: (escList s.data ++ ['"']) from rfl] at hm
    rcases List.mem_cons.1 hm with h | hm
    · exact absurd h (by decide)
    rcases List.mem_append.1 hm with h | h
    · exact nl_not_escList _ h
    · rcases List.mem_cons.1 h with h2 | h2
      · exact absurd h2 (by decide)
      · exact absurd h2 (List.not_mem_nil _)
  | num i =>
    rw [show renderVal (.num i) = intChars i from rfl, intChars]
    split_ifs with hs
    · intro hm
      rcases List.mem_cons.1 hm with h | h
      · exact absurd h (by decide)
      · exact nl_not_natChars _ h
    · exact nl_not_natChars _
  | bool b => cases b <;> decide

theorem nl_not_renderPair (p : String × JVal) : '\n' ∉ renderPair p := by
  intro hm
  rw [renderPair] at hm
  rcases List.mem_cons.1 hm with h | hm
  · exact absurd h (by decide)
  rcases List.mem_append.1 hm with h | h
  · exact nl_not_escList _ h
  rcases List.mem_cons.1 h with h2 | h2
  · exact absurd h2 (by decide)
  rcases List.mem_cons.1 h2 with h3 | h3
  · exact absurd h3 (by decide)
  · exact nl_not_renderVal _ h3

theorem nl_not_joinPairs (ps : List (String × JVal)) : '\n' ∉ joinPairs ps := by
  induction ps with
  | nil => simp [joinPairs]
  | cons p ps ih =>
    cases ps with
    | nil => exact nl_not_renderPair p
    | cons q qs =>
      rw [show joinPairs (p :: q :: qs) = renderPair p ++ ',' :: joinPairs (q :: qs) from rfl]
      intro hm
      rcases List.mem_append.1 hm with h | h
      · exact nl_not_renderPair p h
      · rcases List.mem_cons.1 h with h2 | h2
        · exact absurd h2 (by decide)
        · exact ih h2

theorem nl_not_renderObj (ps : List (String × JVal)) : '\n' ∉ renderObj ps := by
  intro hm
  rw [renderObj] at hm
  rcases List.mem_cons.1 hm with h | h
  · exact absurd h (by decide)
  rcases List.mem_append.1 h with h2 | h2
  · exact nl_not_joinPairs ps h2
  rcases List.mem_cons.1 h2 with h3 | h3
  · exact absurd h3 (by decide)
  · exact absurd h3 (List.not_mem_nil _)

theorem nl_not_marshalA (sl : SyslogLineA) : '\n' ∉ marshalA sl :=
  nl_not_renderObj (pairsA sl)

theorem nl_not_marshalB (sl : SyslogLineB) : '\n' ∉ marshalB sl :=
  nl_not_renderObj (pairsB sl)

theorem runA_healthy (host : String) (pid : Int) (evs : List EvA)
    (h : ∀ e ∈ evs, healthyA e = true) :
    recMsgsA (runA host pid evs) = lineTextsA evs := by
  induction evs with
  | nil => rfl
  | cons e evs ih =>
    have he := h e (List.mem_cons_self e evs)
    have hrest : ∀ x ∈ evs, healthyA x = true := fun x hx => h x (List.mem_cons_of_mem e hx)
    cases e with
    | line t x rerr wok =>
      simp only [healthyA, Bool.and_eq_true, Bool.not_eq_true'] at he
      obtain ⟨hr, hw⟩ := he
      subst hr
      subst hw
      simp [runA, recMsgsA, lineTextsA, ih hrest, lineRecA]
    | closed => simp [healthyA] at he
    | tick wok =>
      simp only [healthyA] at he
      subst he
      simp [runA, recMsgsA, lineTextsA, ih hrest]

theorem runB_healthy (st : StB) (evs : List EvB)
    (h : ∀ e ∈ evs, healthyB e = true) :
    recMsgsB (outsB st evs) = lineTextsB evs := by
  induction evs generalizing st with
  | nil => rfl
  | cons e evs ih =>
    have he := h e (List.mem_cons_self e evs)
    have hrest : ∀ x ∈ evs, healthyB x = true := fun x hx => h x (List.mem_cons_of_mem e hx)
    cases e with
    | line t x rerr wok rok =>
      simp only [healthyB, Bool.and_eq_true] at he
      obtain ⟨hw, hr⟩ := he
      subst hw
      subst hr
      simp [outsB, runB, recMsgsB, lineTextsB, lineRecB] at ih ⊢
      exact ih _ hrest
    | closed => simp [healthyB] at he
    | tick t wok rok =>
      simp only [healthyB, Bool.and_eq_true] at he
      obtain ⟨hw, hr⟩ := he
      subst hw
      subst hr
      simp [outsB, runB, recMsgsB, lineTextsB] at ih ⊢
      exact ih _ hrest

/-- Records `AddRequest` receives during a run of `src/unnamed/part_000`'s
loop: the one log record whose write fails, when the trace reaches one. -/
def failedRecB : List EvB → List SyslogLineB
  | [] => []
  | .closed :: _ => []
  | .line t x _ false _ :: _ => [lineRecB t x]
  | .line _ _ _ true false :: _ => []
  | .line _ _ _ true true :: rest => failedRecB rest
  | .tick _ false _ :: _ => []
  | .tick _ true false :: _ => []
  | .tick _ true true :: rest => failedRecB rest

theorem runB_requsts (st : StB) (evs : List EvB) :
    (runB st evs).1.requsts = st.requsts ++ failedRecB evs := by
  induction evs generalizing st with
  | nil => simp [runB, failedRecB]
  | cons e evs ih =>
    cases e with
    | line t x rerr wok rok =>
      cases wok with
      | false => simp [runB, failedRecB, addRequest]
      | true =>
        cases rok with
        | false => simp [runB, failedRecB]
        | true => simp [runB, failedRecB, ih]
    | closed => simp [runB, failedRecB]
    | tick t wok rok =>
      cases wok with
      | false => simp [runB, failedRecB]
      | true =>
        cases rok with
        | false => simp [runB, failedRecB]
        | true => simp [runB, failedRecB, ih]

theorem foldl_addRequest (rs : List SyslogLineB) : ∀ init : List SyslogLineB,
    rs.foldl addRequest init = init ++ rs := by
  induction rs with
  | nil => intro init; simp
  | cons r rs ih =>
    intro init
    simp [List.foldl_cons, addRequest, ih]

theorem renderObj_beat_get (b : Bool) (rest : List (String × JVal)) :
    (renderObj (("beat", JVal.bool b) :: rest)).get? 8 = some (if b then 't' else 'f') := by
  cases b <;> cases rest <;> rfl

theorem heartbeat_bytes_ne (t : GoTime) (sl : SyslogLineB) (hb : sl.Beat = false) :
    marshalB (beatRecB t) ≠ marshalB sl := by
  intro h
  rw [marshalB, marshalB, pairsB, pairsB, hb, show (beatRecB t).Beat = true from rfl] at h
  have h8 := congrArg (fun l => l.get? 8) h
  simp only [] at h8
  simp only [renderObj_beat_get] at h8
  simp at h8

theorem beatTokenA_ne_marshalA (sl : SyslogLineA) : beatTokenA ≠ marshalA sl := by
  intro h
  have h0 := congrArg (fun l => l.get? 0) h
  simp only [] at h0
  rw [show beatTokenA.get? 0 = some '|' from rfl,
    show (marshalA sl).get? 0 = some '\x7b' from rfl] at h0
  simp at h0

theorem outsB_beat_flag (evs : List EvB) : ∀ st : StB,
    (∀ sl, OutB.log sl ∈ outsB st evs → sl.Beat = false) ∧
    (∀ sl, OutB.beat sl ∈ outsB st evs → sl.Beat = true) := by
  induction evs with
  | nil => intro st; constructor <;> (intro sl hm; simp [outsB, runB] at hm)
  | cons e evs ih =>
    intro st
    cases e with
    | line t x rerr wok rok =>
      cases wok with
      | false =>
        constructor <;> intro sl hm <;> simp [outsB, runB] at hm
        · subst hm; rfl
      | true =>
        cases rok with
        | false =>
          constructor <;> intro sl hm <;> simp [outsB, runB] at hm
          · subst hm; rfl
        | true =>
          constructor <;> intro sl hm <;> simp [outsB, runB] at hm
          · rcases hm with hm | hm
            · subst hm; rfl
            · exact (ih _).1 sl (by simpa [outsB] using hm)
          · exact (ih _).2 sl (by simpa [outsB] using hm)
    | closed =>
      constructor <;> (intro sl hm; simp [outsB, runB] at hm)
    | tick t wok rok =>
      cases wok with
      | false =>
        constructor <;> intro sl hm <;> simp [outsB, runB] at hm
        · subst hm; rfl
      | true =>
        cases rok with
        | false =>
          constructor <;> intro sl hm <;> simp [outsB, runB] at hm
          · subst hm; rfl
        | true =>
          constructor <;> intro sl hm <;> simp [outsB, runB] at hm
          · exact (ih _).1 sl (by simpa [outsB] using hm)
          · rcases hm with hm | hm
            · subst hm; rfl
            · exact (ih _).2 sl (by simpa [outsB] using hm)

theorem runA_log_time (host : String) (pid : Int) (evs : List EvA) (sl : SyslogLineA)
    (hm : OutA.log sl ∈ runA host pid evs) :
    ∃ t x, (∃ rerr wok, EvA.line t x rerr wok ∈ evs) ∧ sl = lineRecA host pid t x := by
  induction evs with
  | nil => simp [runA] at hm
  | cons e evs ih =>
    cases e with
    | line t x rerr wok =>
      cases rerr with
      | true =>
        obtain ⟨t', x', ⟨r', w', hmem⟩, hsl⟩ := ih (by simpa [runA] using hm)
        exact ⟨t', x', ⟨r', w', List.mem_cons_of_mem _ hmem⟩, hsl⟩
      | false =>
        cases wok with
        | true =>
          rw [show runA host pid (EvA.line t x false true :: evs) =
            OutA.log (lineRecA host pid t x) :: runA host pid evs from rfl] at hm
          rcases List.mem_cons.1 hm with h | h
          · exact ⟨t, x, ⟨false, true, List.mem_cons_self _ _⟩, by injection h⟩
          · obtain ⟨t', x', ⟨r', w', hmem⟩, hsl⟩ := ih h
            exact ⟨t', x', ⟨r', w', List.mem_cons_of_mem _ hmem⟩, hsl⟩
        | false =>
          rw [show runA host pid (EvA.line t x false false :: evs) =
            [OutA.log (lineRecA host pid t x)] from rfl] at hm
          rcases List.mem_cons.1 hm with h | h
          · exact ⟨t, x, ⟨false, false, List.mem_cons_self _ _⟩, by injection h⟩
          · exact absurd h (List.not_mem_nil _)
    | closed => simp [runA] at hm
    | tick wok =>
      cases wok with
      | true =>
        rw [show runA host pid (EvA.tick true :: evs) = OutA.beat :: runA host pid evs
          from rfl] at hm
        rcases List.mem_cons.1 hm with h | h
        · exact absurd h (by simp)
        · obtain ⟨t', x', ⟨r', w', hmem⟩, hsl⟩ := ih h
          exact ⟨t', x', ⟨r', w', List.mem_cons_of_mem _ hmem⟩, hsl⟩
      | false =>
        rw [show runA host pid (EvA.tick false :: evs) = [OutA.beat] from rfl] at hm
        simp at hm

/-- Times carried by the line events of a `src/app.go` trace come from real
clock readings. -/
def evTimeValidA : EvA → Prop
  | .line t _ _ _ => t.Valid
  | _ => True

/-- Per-event success flag of the stream write in `src/unnamed/part_000`
traces (every write that occurs in the trace succeeds when this holds on all
events). -/
def writeOkB : EvB → Bool
  | .line _ _ _ wok _ => wok
  | .closed => true
  | .tick _ wok _ => wok

/-- A sample wall-clock reading: 2026-02-03 04:05:06 UTC, zero nanoseconds,
with the monotonic-clock suffix a `time.Now()` value carries. -/
def sampleTime : GoTime := ⟨2026, 2, 3, 4, 5, 6, 0, 0, "UTC", "m=+0.000104084"⟩

/-- Trace for the `src/unnamed/part_000` loop in which both stream writes
succeed but the response read after the first record fails. -/
def cexEvsB : List EvB :=
  [.line sampleTime "a" false true false, .line sampleTime "b" false true true]

/-- C1 (amended): when every event of the trace is healthy — the tail channel
stays open, lines carry no read error, every stream write succeeds and, in the
variant that reads a response after each write, every response read succeeds —
each delivery loop performs exactly one log-record write per observed line, in
the same order, with the record's `message` equal to the line's exact text. -/
theorem c1_delivery_order :
    (∀ (host : String) (pid : Int) (evs : List EvA), (∀ e ∈ evs, healthyA e = true) →
      recMsgsA (runA host pid evs) = lineTextsA evs) ∧
    (∀ (st : StB) (evs : List EvB), (∀ e ∈ evs, healthyB e = true) →
      recMsgsB (outsB st evs) = lineTextsB evs) :=
  ⟨runA_healthy, runB_healthy⟩

/-- C1 (witness): a concrete healthy trace of two lines around a heartbeat is
delivered as exactly those two messages in order. -/
theorem c1_witness :
    recMsgsA (runA "host" 7 [EvA.line sampleTime "a" false true, EvA.tick true,
      EvA.line sampleTime "b" false true]) = ["a", "b"] := by
  rw [c1_delivery_order.1 "host" 7 _ (by decide)]
  rfl

/-- C1 (counterexample): in the `src/unnamed/part_000` loop, two lines arrive
and every stream write succeeds, yet only one log-record write is performed,
because the loop terminates when the response read after the first record
fails. -/
theorem c1_counterexample :
    (∀ e ∈ cexEvsB, writeOkB e = true) ∧ lineTextsB cexEvsB = ["a", "b"] ∧
    recMsgsB (outsB initAppB cexEvsB) = ["a"] := by decide

/-- C2: on the first failed write each loop terminates at once — the trailing
events are never processed and the failed payload is the final write attempt,
so the same write is never retried on the stream. `src/app.go` terminates
without buffering on either kind of failure (policy A); `src/unnamed/part_000`
appends a failed log record — and only a log record, not a failed heartbeat —
to the pending slice before terminating (policy B). -/
theorem c2_fail_stop :
    (∀ (host : String) (pid : Int) (t : GoTime) (x : String) (rest : List EvA),
      runA host pid (.line t x false false :: rest) = [.log (lineRecA host pid t x)]) ∧
    (∀ (host : String) (pid : Int) (rest : List EvA),
      runA host pid (.tick false :: rest) = [.beat]) ∧
    (∀ (st : StB) (t : GoTime) (x : String) (rerr rok : Bool) (rest : List EvB),
      runB st (.line t x rerr false rok :: rest) =
        (⟨st.requsts ++ [lineRecB t x], st.lines ++ x.data ++ ['\n']⟩,
          [.log (lineRecB t x)])) ∧
    (∀ (st : StB) (t : GoTime) (rok : Bool) (rest : List EvB),
      runB st (.tick t false rok :: rest) = (st, [.beat (beatRecB t)])) :=
  ⟨fun _ _ _ _ _ => rfl, fun _ _ _ => rfl, fun _ _ _ _ _ _ => rfl, fun _ _ _ _ => rfl⟩

/-- C3 (counterexample): the trace consisting of one ticker fire makes the
`src/app.go` loop pass a payload to the stream write — the heartbeat token
`|beat|` — whose last byte is not a newline, so not every payload ends with
a `'\n'` byte. -/
theorem c3_counterexample :
    ¬ ∀ o ∈ runA "host" 1 [EvA.tick true], (payloadA o).getLast? = some '\n' := by decide

/-- C3 (amended): under the newline-delimited JSON framing `src/app.go` uses
for log records, every log-record payload ends with exactly one `'\n'` — the
marshalled record itself contains no newline byte and a single newline is
appended — while the heartbeat payload is the reserved token `|beat|`, which
carries no trailing newline. -/
theorem c3_newline_framing :
    (∀ sl : SyslogLineA, payloadA (.log sl) = marshalA sl ++ ['\n'] ∧ '\n' ∉ marshalA sl) ∧
    payloadA .beat = beatTokenA ∧ beatTokenA.getLast? ≠ some '\n' :=
  ⟨fun sl => ⟨rfl, nl_not_marshalA sl⟩, rfl, by decide⟩

/-- C4: the heartbeat encoding differs from the encoding of every log record
in both variants — in `src/unnamed/part_000` because `beat` is `true` on a
heartbeat and `false` on every record the loop writes, in `src/app.go` because
the token `|beat|` is not a JSON object — and on a heartbeat record the
content fields `hostname`, `program`, `pid` and `message` are all empty while
the `beat` flag is true exactly on the heartbeat writes of a run. -/
theorem c4_heartbeat_distinct :
    (∀ (t : GoTime) (sl : SyslogLineB), sl.Beat = false →
      marshalB (beatRecB t) ≠ marshalB sl) ∧
    (∀ t : GoTime, (beatRecB t).Beat = true ∧ (beatRecB t).Hostname = "" ∧
      (beatRecB t).Program = "" ∧ (beatRecB t).Pid = "" ∧ (beatRecB t).Message = "") ∧
    (∀ (st : StB) (evs : List EvB) (sl : SyslogLineB),
      (OutB.log sl ∈ outsB st evs → sl.Beat = false) ∧
      (OutB.beat sl ∈ outsB st evs → sl.Beat = true)) ∧
    (∀ sl : SyslogLineA, beatTokenA ≠ marshalA sl) :=
  ⟨heartbeat_bytes_ne, fun _ => ⟨rfl, rfl, rfl, rfl, rfl⟩,
    fun st evs sl => ⟨(outsB_beat_flag evs st).1 sl, (outsB_beat_flag evs st).2 sl⟩,
    beatTokenA_ne_marshalA⟩

/-- C4 (witness): the heartbeat encoding at a concrete time differs from the
encoding of the zero-valued log record. -/
theorem c4_witness :
    zeroLineB.Beat = false ∧ marshalB (beatRecB sampleTime) ≠ marshalB zeroLineB :=
  ⟨rfl, c4_heartbeat_distinct.1 sampleTime zeroLineB rfl⟩

set_option maxRecDepth 20000 in
/-- C5 (counterexample): for a line event at a concrete clock reading, the
`src/unnamed/part_000` loop writes a record whose JSON object carries six
keys — `beat` in addition to the five the claim allows — and whose `timestamp`
is Go's default time format, not a valid RFC 3339 date-time. -/
theorem c5_counterexample :
    OutB.log (lineRecB sampleTime "x") ∈
      outsB initAppB [EvB.line sampleTime "x" false true true] ∧
    recordKeys (payloadB (OutB.log (lineRecB sampleTime "x"))) ≠
      some ["timestamp", "hostname", "program", "pid", "message"] ∧
    isRFC3339 (lineRecB sampleTime "x").Timestamp.data = false := by decide

/-- C5 (amended): every log record the `src/app.go` loop emits marshals to a
JSON object whose keys, as recovered by a conforming receiver, are exactly
`timestamp`, `hostname`, `program`, `pid` and `message`, and its `timestamp`
is a valid RFC 3339 date-time whenever the trace's line-event times are real
clock readings. -/
theorem c5_record_fields (host : String) (pid : Int) (evs : List EvA) (sl : SyslogLineA)
    (hv : ∀ e ∈ evs, evTimeValidA e) (hm : OutA.log sl ∈ runA host pid evs) :
    recordKeys (marshalA sl) = some ["timestamp", "hostname", "program", "pid", "message"] ∧
    isRFC3339 sl.Timestamp.data = true := by
  obtain ⟨t, x, ⟨rerr, wok, hmem⟩, hsl⟩ := runA_log_time host pid evs sl hm
  refine ⟨recordKeys_marshalA sl, ?_⟩
  have hvt : t.Valid := hv _ hmem
  subst hsl
  exact fmtRFC3339_valid t hvt

/-- C5 (witness): the record for a line observed at the sample time has
exactly the five keys and an RFC 3339 timestamp. -/
theorem c5_witness :
    recordKeys (marshalA (lineRecA "host" 7 sampleTime "m")) =
      some ["timestamp", "hostname", "program", "pid", "message"] ∧
    isRFC3339 (lineRecA "host" 7 sampleTime "m").Timestamp.data = true :=
  c5_record_fields "host" 7 [EvA.line sampleTime "m" false true] _
    (by
      intro e he
      simp at he
      subst he
      show sampleTime.Valid
      norm_num [GoTime.Valid, sampleTime])
    (by simp [runA])

/-- C6: for the schedule with `hello` appended at second 0, six seconds of
silence, then `world` at second 6, under the 5-second heartbeat ticker and
with every write succeeding, the `src/app.go` loop produces exactly the wire
sequence record("hello"), heartbeat, record("world"), in that order. -/
theorem c6_schedule (clk : Nat → GoTime) (host : String) (pid : Int) :
    wireViewA (runA host pid (scheduleEvents clk [(0, "hello"), (6, "world")] tickerPeriod)) =
      [.msg "hello", .beat, .msg "world"] := by
  simp [scheduleEvents, tickTimes, tickerPeriod, List.range_succ]
  simp [mergeEvs]
  simp [runA, wireViewA, lineRecA]

/-- C7 (counterexample): a line event carrying a tail read error is not
dropped by the `src/unnamed/part_000` loop: the loop never inspects the error
and encodes and writes the line's record anyway. -/
theorem c7_counterexample :
    outsB initAppB [EvB.line sampleTime "boom" true true true] =
      [OutB.log (lineRecB sampleTime "boom")] := rfl

/-- C7 (amended): in `src/app.go` a line event carrying a read error is logged
and dropped — no record is built or written for it — and the loop continues
with the remaining events; the `src/unnamed/part_000` loop ignores the
per-line error flag entirely, behaving identically with or without it. -/
theorem c7_read_error (host : String) (pid : Int) (t : GoTime) (x : String) :
    (∀ (wok : Bool) (rest : List EvA),
      runA host pid (.line t x true wok :: rest) = runA host pid rest) ∧
    (∀ (st : StB) (wok rok r1 r2 : Bool) (rest : List EvB),
      runB st (.line t x r1 wok rok :: rest) = runB st (.line t x r2 wok rok :: rest)) :=
  ⟨fun _ _ => rfl, fun _ _ _ _ _ _ => rfl⟩

/-- C8: marshalling a `src/app.go` record and decoding the bytes with a
conforming JSON receiver returns the record unchanged — in particular the
`message`, `hostname`, `program` and `pid` fields are identical to the
original's. -/
theorem c8_encode_decode (sl : SyslogLineA) : decodeA (marshalA sl) = some sl :=
  decodeA_marshalA sl

/-- C9: `main` of `src/unnamed/part_000` starts the loop with a pending slice
already holding 500 zero-valued records; `AddRequest` is a pure append, so
after `k` appended records the slice holds `500 + k` entries whose first 500
are still the zero records; and a loop run only ever extends the slice — by
exactly the log record whose write failed, never removing an entry. -/
theorem c9_pending_buffer :
    initAppB.requsts = List.replicate 500 zeroLineB ∧
    (∀ (l : List SyslogLineB) (r : SyslogLineB), addRequest l r = l ++ [r]) ∧
    (∀ rs : List SyslogLineB,
      rs.foldl addRequest initAppB.requsts = List.replicate 500 zeroLineB ++ rs ∧
      (rs.foldl addRequest initAppB.requsts).length = 500 + rs.length ∧
      (rs.foldl addRequest initAppB.requsts).take 500 = List.replicate 500 zeroLineB) ∧
    (∀ (st : StB) (evs : List EvB),
      (runB st evs).1.requsts = st.requsts ++ failedRecB evs) := by
  refine ⟨rfl, fun _ _ => rfl, fun rs => ?_, runB_requsts⟩
  rw [foldl_addRequest]
  refine ⟨rfl, ?_, ?_⟩
  · show (List.replicate 500 zeroLineB ++ rs).length = 500 + rs.length
    rw [List.length_append, List.length_replicate]
  · show (List.replicate 500 zeroLineB ++ rs).take 500 = List.replicate 500 zeroLineB
    exact List.take_left' (List.length_replicate 500 zeroLineB)

/-- C10: in the `src/unnamed/part_000` loop, every successful write — log
record or heartbeat — is followed by a blocking read of a response before the
next event is handled: a failed read terminates the loop with the trailing
events unprocessed, and the loop proceeds past an event exactly when both its
write and its response read succeed. -/
theorem c10_read_after_write :
    (∀ (st : StB) (t : GoTime) (x : String) (r : Bool) (rest : List EvB),
      runB st (.line t x r true false :: rest) = runB st [.line t x r true false]) ∧
    (∀ (st : StB) (t : GoTime) (rest : List EvB),
      runB st (.tick t true false :: rest) = runB st [.tick t true false]) ∧
    (∀ (st : StB) (t : GoTime) (x : String) (r : Bool) (rest : List EvB),
      outsB st (.line t x r true true :: rest) =
        .log (lineRecB t x) :: outsB ⟨st.requsts, st.lines ++ x.data ++ ['\n']⟩ rest) ∧
    (∀ (st : StB) (t : GoTime) (rest : List EvB),
      outsB st (.tick t true true :: rest) = .beat (beatRecB t) :: outsB st rest) :=
  ⟨fun _ _ _ _ _ => rfl, fun _ _ _ => rfl, fun _ _ _ _ _ => rfl, fun _ _ _ => rfl⟩
